import Mathlib

/-!
Shallow embedding of the data-processing core of `src/Streamlit_app.py`
(a Streamlit dashboard over a flat table of per-track streaming metrics),
together with proofs settling the frozen specification claims.

Conventions of the embedding:
* a dataframe row is a `Row`: the columns the analysed code paths touch
  (`Track`, `Artist(s)`, `Released Year`, and one numeric metric column such
  as `Spotify Streams`); a pandas `NaN` cell is `Option.none`;
* numeric cells are modelled as integers (`Int`), which is faithful to the
  metric columns the code aggregates (stream counts, view counts);
* pandas operations are translated operation by operation: `groupby` with its
  default `dropna=True` and `sort=True`, `isin`, `nlargest` with its default
  `keep='first'`, `sort_values(ascending=False)` (modelled with a stable
  descending sort), `str.contains(case=False)` with its default `regex=True`,
  `to_csv(index=False)` with minimal quoting;
* string primitives are re-implemented on `List Char` so that every
  definition evaluates inside the kernel.
-/

namespace SpotifyApp

/-! ## Character and string helpers -/

/-- Whitespace test used by Python's `str.strip` (restricted to the ASCII
whitespace characters that occur in CSV headers and cells). -/
def isWsChar (c : Char) : Bool :=
  c = ' ' || c = '\t' || c = '\n' || c = '\r' || c = '\x0b' || c = '\x0c'

/-- Strip leading and trailing whitespace from a character list. -/
def trimChars (l : List Char) : List Char :=
  ((l.dropWhile isWsChar).reverse.dropWhile isWsChar).reverse

/-- Python `str.strip()` on a string. -/
def stripStr (s : String) : String := ⟨trimChars s.data⟩

/-- Lower-case a string character by character (the comparison performed by
`case=False` matching). -/
def lowerStr (s : String) : String := ⟨s.data.map Char.toLower⟩

/-- Does the first list start with the second one? -/
def startsWithChars : List Char → List Char → Bool
  | _, [] => true
  | [], _ :: _ => false
  | c :: cs, d :: ds => c = d && startsWithChars cs ds

/-- Does the needle occur as a contiguous run inside the haystack? -/
def hasSubChars (needle : List Char) : List Char → Bool
  | [] => needle.isEmpty
  | c :: cs => startsWithChars (c :: cs) needle || hasSubChars needle cs

/-- Python's `needle in hay` substring test on strings. -/
def containsSub (hay needle : String) : Bool := hasSubChars needle.data hay.data

/-- Lexicographic code-point comparison of character lists (the order Python
uses to compare strings, hence the order pandas sorts object keys by). -/
def ltChars : List Char → List Char → Bool
  | [], [] => false
  | [], _ :: _ => true
  | _ :: _, [] => false
  | c :: cs, d :: ds =>
    if c.toNat < d.toNat then true
    else if d.toNat < c.toNat then false
    else ltChars cs ds

/-- Strict string comparison. -/
def strLt (a b : String) : Bool := ltChars a.data b.data

/-- Non-strict string comparison of the same total order. -/
def strLe (a b : String) : Bool := !ltChars b.data a.data

/-! ## The row model

One row of the dashboard's dataframe, restricted to the columns the
analysed code paths read: `Track`, `Artist(s)`, `Released Year` and one
numeric metric column (`Spotify Streams` in `create_artist_analysis` and
the `metric_col` argument of `create_top_charts`). -/

structure Row where
  track : Option String
  artist : Option String
  year : Int
  streams : Int
deriving DecidableEq

/-! ## Filter pipeline (`main`, lines 237–257)

`df_filtered = df[df['Released Year'].isin(selected_years)] if selected_years else df`
and
`if selected_artists: df_filtered = df_filtered[df_filtered['Artist(s)'].isin(selected_artists)]`.

Python's truthiness of a list is its non-emptiness, and pandas `isin` is
false on a `NaN` cell. -/

/-- Year multiselect filter: identity when the selection is empty. -/
def filter_years (selected_years : List Int) (df : List Row) : List Row :=
  if selected_years = [] then df
  else df.filter (fun r => decide (r.year ∈ selected_years))

/-- Artist multiselect filter: applied only when the selection is nonempty;
`isin` rejects rows whose artist cell is `NaN`. -/
def filter_artists (selected_artists : List String) (df : List Row) : List Row :=
  if selected_artists = [] then df
  else df.filter (fun r =>
    match r.artist with
    | some a => decide (a ∈ selected_artists)
    | none => false)

/-! ## Grouping (`create_artist_analysis`, lines 142–161)

`df.groupby('Artist(s)')['Spotify Streams'].sum().sort_values(ascending=False).head(15)`.

pandas `groupby` defaults: `dropna=True` (rows whose key cell is `NaN` are
excluded from every group) and `sort=True` (group keys are sorted
ascending). `sort_values` is modelled with a stable descending sort. -/

/-- The artist cells that are present (`NaN` keys excluded, as
`groupby(dropna=True)` does). -/
def presentArtists (df : List Row) : List String := df.filterMap (·.artist)

/-- First occurrence of each string, in first-seen order. -/
def firstSeenAux : List String → List String → List String
  | _, [] => []
  | seen, x :: xs =>
    if x ∈ seen then firstSeenAux seen xs else x :: firstSeenAux (x :: seen) xs

/-- Deduplicate keeping first occurrences. -/
def firstSeen (l : List String) : List String := firstSeenAux [] l

/-- Stable insertion: `x` is placed before the first element `y` such that
`pl x y` ("x may precede y"), so among tied elements the earlier one stays
first. -/
def insertBy (pl : α → α → Bool) (x : α) : List α → List α
  | [] => [x]
  | y :: ys => if pl x y then x :: y :: ys else y :: insertBy pl x ys

/-- Stable insertion sort with precedence test `pl`. -/
def sortBy (pl : α → α → Bool) (l : List α) : List α := l.foldr (insertBy pl) []

/-- Sort strings ascending (the key ordering of `groupby(sort=True)`). -/
def sortStrings (l : List String) : List String :=
  sortBy strLe l

/-- The group keys produced by `groupby('Artist(s)')`: the distinct present
artist values, sorted ascending. -/
def groupKeys (df : List Row) : List String :=
  sortStrings (firstSeen (presentArtists df))

/-- The rows of one group. -/
def groupRows (df : List Row) (k : String) : List Row :=
  df.filter (fun r => decide (r.artist = some k))

/-- The `sum()` reduction of the metric column over one group. -/
def groupStreams (df : List Row) (k : String) : Int :=
  ((groupRows df k).map (·.streams)).sum

/-- The `count` reduction over one group. -/
def groupCount (df : List Row) (k : String) : Nat := (groupRows df k).length

/-- Model of `df.groupby('Artist(s)')['Spotify Streams'].sum()`: per-key sums, keys in
the sorted order `groupby` produces. -/
def artist_streams (df : List Row) : List (String × Int) :=
  (groupKeys df).map (fun k => (k, groupStreams df k))

/-- Model of `sort_values(ascending=False)`. pandas' default
`kind='quicksort'` documents no order among equal elements, so the model
must pick one concrete refinement to stay executable: a stable descending
insertion sort. This coincides with numpy's introsort on inputs below its
insertion-sort threshold — in particular on the two-group inputs evaluated
below — and no theorem asserts a tie order for this sort in general. -/
def sortValsDesc (l : List (String × Int)) : List (String × Int) :=
  sortBy (fun a b => decide (b.2 ≤ a.2)) l

/-- The function `create_artist_analysis`: group by artist, sum the streams, sort the sums
descending and keep the first 15 (`.head(15)`). The function's guard that
both columns exist is the choice of the `Row` type. -/
def create_artist_analysis (df : List Row) : List (String × Int) :=
  (sortValsDesc (artist_streams df)).take 15

/-- Rows sorted descending by the metric, stably (ties keep first-seen row
order, as `nlargest` with its default `keep='first'` does). -/
def rowsDesc (df : List Row) : List Row :=
  sortBy (fun a b => decide (b.streams ≤ a.streams)) df

/-- Model of `df.nlargest(n, metric_col)`: the `n` largest rows by the metric, ties
broken by position, all rows when `n` exceeds the row count. -/
def nlargestRows (n : Nat) (df : List Row) : List Row := (rowsDesc df).take n

/-- The function `create_top_charts`, lines 120–140: the data selection it plots is
`df.nlargest(n, metric_col)`. -/
def create_top_charts (df : List Row) (n : Nat) : List Row := nlargestRows n df

/-- Modelled from the spec (§3, §4.3): the `RankedResult` the claim
describes, with group keys in first-seen dataset order so that the stable
descending sort breaks ties by first appearance; written for comparison
with `create_artist_analysis`, whose `groupby` sorts keys ascending
instead. -/
def rankedResultSpec (df : List Row) : List (String × Int) :=
  (sortValsDesc ((firstSeen (presentArtists df)).map
    (fun k => (k, groupStreams df k)))).take 15

/-! ## Instrumented aggregation entry point (claim C1)

The source has no cache of any kind (no `@st.cache_data`, no memo table):
`create_artist_analysis` recomputes its aggregation on every call. The
instrumented variant threads an explicit computation counter that each call
increments, which is faithful because the function body computes
unconditionally. -/

/-- One call of the aggregation entry point with a computation counter:
the body performs its computation unconditionally, so the counter always
increments. -/
def artist_analysis_counted (df : List Row) (calls : Nat) :
    List (String × Int) × Nat :=
  (create_artist_analysis df, calls + 1)

/-- Two successive calls with the same input, starting from a fresh
counter: the pair of results and the final counter. -/
def artist_analysis_twice (df : List Row) :
    (List (String × Int) × List (String × Int)) × Nat :=
  let p1 := artist_analysis_counted df 0
  let p2 := artist_analysis_counted df p1.2
  ((p1.1, p2.1), p2.2)

/-! ## Correlation heatmap (`create_correlation_heatmap`, lines 163–184)

`numeric_cols = df.select_dtypes(include=[np.number]).columns.tolist()`,
then `corr_cols = [col for col in numeric_cols if 'Rank' not in col and
'rank' not in col]`, then `df[corr_cols].corr()` when both guards
`len(numeric_cols) > 1` and `len(corr_cols) > 1` hold, else no matrix. -/

/-- One dataframe column as the correlation path sees it: its name, whether
its dtype is numeric (what `select_dtypes(include=[np.number])` selects —
an entirely-`NaN` column is a float column, hence numeric), and its cells
(`none` = `NaN`). The cells of non-numeric columns are never read here. -/
structure Column where
  name : String
  numeric : Bool
  cells : List (Option Int)
deriving DecidableEq

/-- A dataframe for the correlation path: its columns in order. -/
abbrev Frame := List Column

/-- The names of the numeric-dtype columns. -/
def numeric_cols (df : Frame) : List String :=
  (df.filter (·.numeric)).map (·.name)

/-- The numeric columns kept for correlation: those whose name contains
neither `"Rank"` nor `"rank"`. -/
def corr_cols (df : Frame) : List String :=
  (numeric_cols df).filter
    (fun c => !containsSub c "Rank" && !containsSub c "rank")

/-- Model of `df[c]`: the cells of the first column named `c`. -/
def colCells (df : Frame) (c : String) : List (Option Int) :=
  match df.find? (fun col => decide (col.name = c)) with
  | some col => col.cells
  | none => []

/-- The row pairs where both columns have a present value (pandas `corr`
computes each entry over pairwise-complete observations). -/
def completePairs (xs ys : List (Option Int)) : List (Int × Int) :=
  (xs.zip ys).filterMap (fun p =>
    match p with
    | (some a, some b) => some (a, b)
    | _ => none)

/-- Pearson correlation of a list of complete pairs, reported as the
signed square `sign(cov) * cov^2 / (varx * vary)` — a strictly monotone
function of `r` that avoids square roots — and `none` (`NaN`) exactly when
either variance is zero, which covers the empty and single-observation
cases just as pandas produces `NaN` there. -/
def pearsonOfPairs (ps : List (Int × Int)) : Option ℚ :=
  let n : Int := ps.length
  let sx := (ps.map (fun p => p.1)).sum
  let sy := (ps.map (fun p => p.2)).sum
  let sxx := (ps.map (fun p => p.1 * p.1)).sum
  let syy := (ps.map (fun p => p.2 * p.2)).sum
  let sxy := (ps.map (fun p => p.1 * p.2)).sum
  let vx := n * sxx - sx * sx
  let vy := n * syy - sy * sy
  let cov := n * sxy - sx * sy
  if vx = 0 ∨ vy = 0 then none
  else some (((cov : ℚ) * |(cov : ℚ)|) / ((vx : ℚ) * (vy : ℚ)))

/-- One correlation entry between two named columns. -/
def pearsonSq (xs ys : List (Option Int)) : Option ℚ :=
  pearsonOfPairs (completePairs xs ys)

/-- Model of `df[corr_cols].corr()` as a labelled square matrix: one labelled row
per kept column, each row holding one labelled entry per kept column. -/
def correlation_matrix (df : Frame) : List (String × List (String × Option ℚ)) :=
  (corr_cols df).map (fun c1 =>
    (c1, (corr_cols df).map (fun c2 =>
      (c2, pearsonSq (colCells df c1) (colCells df c2)))))

/-- The function `create_correlation_heatmap`: the data behind the figure — `none` when
either guard fails and no matrix is produced. -/
def create_correlation_heatmap (df : Frame) :
    Option (List (String × List (String × Option ℚ))) :=
  if 1 < (numeric_cols df).length then
    if 1 < (corr_cols df).length then some (correlation_matrix df)
    else none
  else none

/-! ## Track search (`main`, lines 385–397)

`mask = df_filtered['Track'].str.contains(search_term, case=False, na=False)`.
`Series.str.contains` defaults to `regex=True`: the query is compiled as a
regular expression (`re.IGNORECASE` for `case=False`) and tested with
`re.search` at every position; `na=False` makes a `NaN` title a
non-match. The regular-expression dialect is modelled for the fragment
exercised here: literal characters and the `'.'` metacharacter, which
matches any character except a newline. -/

/-- Match the pattern against a prefix of the text (`re.match` semantics
for literal characters and `'.'`). -/
def reMatchAt : List Char → List Char → Bool
  | [], _ => true
  | _ :: _, [] => false
  | p :: ps, c :: cs => ((p = '.' && !(c = '\n')) || p = c) && reMatchAt ps cs

/-- Model of `re.search`: match the pattern at any position of the text. -/
def reSearch (pat : List Char) : List Char → Bool
  | [] => reMatchAt pat []
  | c :: cs => reMatchAt pat (c :: cs) || reSearch pat cs

/-- One cell of the `str.contains(search_term, case=False, na=False)` mask. -/
def str_contains_mask (title : Option String) (pat : String) : Bool :=
  match title with
  | none => false
  | some t => reSearch (lowerStr pat).data (lowerStr t).data

/-- The Data Explorer search: an empty query leaves the frame unfiltered
(`if search_term:` is false), otherwise rows are kept by the regex mask. -/
def searchTracks (df : List Row) (query : String) : List Row :=
  if query = "" then df
  else df.filter (fun r => str_contains_mask r.track query)

/-- Modelled from the spec (§4.5): the case-insensitive literal substring
test that `searchByTitle` is specified to perform, for comparison with the
code's regex semantics. -/
def searchSpecMatch (title : String) (query : String) : Bool :=
  hasSubChars (lowerStr query).data (lowerStr title).data

/-! ## The mutating normalizer (`process_dataframe`, lines 106–118) and the
heap model

`process_dataframe` mutates the dataframe object it receives:
`df.columns = df.columns.str.strip()` assigns the stripped names to the
same object, and the function returns that object. The attempted
`df['Release_Date'] = pd.to_datetime(df[['Released Year', 'Released
Month']].assign(day=1))` always raises — `pd.to_datetime` applied to a
DataFrame assembles a date only from columns named `year`/`month`/`day`
(or recognised aliases), and these columns are named `Released Year` and
`Released Month` — and the bare `except: pass` swallows the error, so no
derived column is ever added.

To state mutation, a Python heap is modelled explicitly: a `Heap` is a
store of dataframe objects and a reference is an index into it; an
operation that mutates an object updates the store at its reference, and
an operation that builds a new object appends to the store. -/

/-- A dataframe object for the mutation claims: column names and the rows
of cells in their textual form. -/
structure PyDF where
  cols : List String
  cells : List (List String)
deriving DecidableEq

/-- The store of dataframe objects; a reference is an index. -/
abbrev Heap := List PyDF

/-- The value-level effect of `process_dataframe`: column names stripped,
cells untouched (the `Release_Date` branch always falls into `except:
pass`, see above). -/
def process_df_pure (df : PyDF) : PyDF :=
  { cols := df.cols.map stripStr, cells := df.cells }

/-- The function `process_dataframe(df)`: mutates the object behind the reference in
place and returns the same reference. -/
def process_dataframe (h : Heap) (r : Nat) : Heap × Nat :=
  match h.get? r with
  | some df => (h.set r (process_df_pure df), r)
  | none => (h, r)

/-- Index of a named column. -/
def colIdx (cols : List String) (c : String) : Option Nat :=
  cols.findIdx? (fun x => decide (x = c))

/-- Decimal digit value of a character. -/
def digitVal (c : Char) : Option Nat :=
  if 48 ≤ c.toNat ∧ c.toNat ≤ 57 then some (c.toNat - 48) else none

/-- Read a nonempty digit string. -/
def natOfChars : List Char → Nat → Option Nat
  | [], acc => some acc
  | c :: cs, acc =>
    match digitVal c with
    | some d => natOfChars cs (acc * 10 + d)
    | none => none

/-- Read an integer literal (optional leading minus), as the year cells of
the flat table carry after ingestion. -/
def parseIntStr (s : String) : Option Int :=
  match s.data with
  | '-' :: rest =>
    if rest = [] then none else (natOfChars rest 0).map (fun n => -(n : Int))
  | l => if l = [] then none else (natOfChars l 0).map (fun n => (n : Int))

/-- Does the row's `Released Year` cell (at index `k`) lie in the selected
set? (`isin` on the integer-typed year column.) -/
def cellYearIn (row : List String) (k : Nat) (ys : List Int) : Bool :=
  match row.get? k with
  | some c =>
    match parseIntStr c with
    | some v => decide (v ∈ ys)
    | none => false
  | none => false

/-- The year filter as a heap operation:
`df[df['Released Year'].isin(selected_years)] if selected_years else df` —
with no year column or an empty selection the same reference is returned;
otherwise a new filtered object is allocated and the old one is left
untouched. -/
def filter_years_heap (h : Heap) (r : Nat) (ys : List Int) : Heap × Nat :=
  match h.get? r with
  | none => (h, r)
  | some df =>
    match colIdx df.cols "Released Year" with
    | none => (h, r)
    | some k =>
      if ys = [] then (h, r)
      else
        (h ++ [⟨df.cols, df.cells.filter (fun row => cellYearIn row k ys)⟩],
         h.length)

/-- Membership test of the artist multiselect: `isin` on the artist cell. -/
def cellArtistIn (row : List String) (k : Nat) (sel : List String) : Bool :=
  match row.get? k with
  | some c => decide (c ∈ sel)
  | none => false

/-- The artist filter as a heap operation (`main`, lines 249–257):
`if selected_artists: df_filtered = df_filtered[df_filtered['Artist(s)'].isin(selected_artists)]`,
guarded by the presence of the `Artist(s)` column — with no such column or
an empty selection the same reference is returned; otherwise a new
filtered object is allocated and the old one is left untouched. -/
def filter_artists_heap (h : Heap) (r : Nat) (sel : List String) : Heap × Nat :=
  match h.get? r with
  | none => (h, r)
  | some df =>
    match colIdx df.cols "Artist(s)" with
    | none => (h, r)
    | some k =>
      if sel = [] then (h, r)
      else
        (h ++ [⟨df.cols, df.cells.filter (fun row => cellArtistIn row k sel)⟩],
         h.length)

/-- A store of row datasets, for stating that aggregation writes no
existing object. -/
abbrev RowHeap := List (List Row)

/-- The aggregation
`df.groupby('Artist(s)')['Spotify Streams'].sum().sort_values(ascending=False).head(15)`
as a heap operation: every step of the chain allocates a fresh pandas
object and writes none of the existing ones, so on the heap the operation
is read-only and the ranked result is returned as a fresh value. -/
def artist_analysis_heap (h : RowHeap) (r : Nat) :
    RowHeap × List (String × Int) :=
  match h.get? r with
  | some df => (h, create_artist_analysis df)
  | none => (h, [])

/-! ## CSV export (`main`, lines 413–423) and the spec's reimport

`csv = df_filtered.to_csv(index=False)`: a header line of column names
followed by one line per row, newline-terminated, fields joined by commas
and minimally quoted — a field containing a comma, double quote, newline
or carriage return is wrapped in double quotes with inner quotes doubled.
Cells are modelled in their textual form. -/

/-- Does a field need quoting under minimal quoting? -/
def isCsvSpecial (c : Char) : Bool :=
  c = ',' || c = '"' || c = '\n' || c = '\r'

/-- Double every double quote. -/
def dupQuotes : List Char → List Char
  | [] => []
  | c :: cs => if c = '"' then '"' :: '"' :: dupQuotes cs else c :: dupQuotes cs

/-- Minimal quoting of one field. -/
def escapeFieldChars (l : List Char) : List Char :=
  if l.any isCsvSpecial then '"' :: (dupQuotes l ++ ['"']) else l

/-- The `",".join` of the escaped fields. -/
def csvJoinFields : List (List Char) → List Char
  | [] => []
  | [f] => escapeFieldChars f
  | f :: g :: fs => escapeFieldChars f ++ ',' :: csvJoinFields (g :: fs)

/-- One newline-terminated CSV record. -/
def csvLineChars (fs : List (List Char)) : List Char :=
  csvJoinFields fs ++ ['\n']

/-- Model of `df_filtered.to_csv(index=False)`. -/
def to_csv (cols : List String) (rows : List (List String)) : String :=
  ⟨csvLineChars (cols.map (fun s => s.data)) ++
    (rows.map (fun row => csvLineChars (row.map (fun s => s.data)))).flatten⟩

/-- Modelled from the spec (§6 Export, §8 Round-trip): the reimport step of
`export -> reimport` is not part of the source (the app only offers the
CSV for download), so it is modelled as the inverse reading of the same
dialect `to_csv` writes. `parseQuoted` reads the remainder of a quoted
field: a doubled quote is a literal quote, a single quote closes the
field. -/
def parseQuoted : List Char → Option (List Char × List Char)
  | [] => none
  | c :: rest =>
    if c = '"' then
      match rest with
      | d :: rest2 =>
        if d = '"' then (parseQuoted rest2).map (fun p => ('"' :: p.1, p.2))
        else some ([], d :: rest2)
      | [] => some ([], [])
    else (parseQuoted rest).map (fun p => (c :: p.1, p.2))

/-- Read an unquoted field: everything up to the next comma or newline. -/
def parseUnquoted : List Char → List Char × List Char
  | [] => ([], [])
  | c :: rest =>
    if c = ',' || c = '\n' then ([], c :: rest)
    else
      let p := parseUnquoted rest
      (c :: p.1, p.2)

/-- Read one field: quoted when it opens with a double quote, unquoted
otherwise. -/
def parseField (l : List Char) : Option (List Char × List Char) :=
  match l with
  | [] => some ([], [])
  | c :: rest =>
    if c = '"' then parseQuoted rest else some (parseUnquoted (c :: rest))

/-- Read one newline-terminated record; the fuel bounds the number of
fields. -/
def parseRecordF : Nat → List Char → Option (List (List Char) × List Char)
  | 0, _ => none
  | fuel + 1, l =>
    (parseField l).bind (fun fr =>
      match fr.2 with
      | [] => none
      | s :: r2 =>
        if s = ',' then
          (parseRecordF fuel r2).map (fun p => (fr.1 :: p.1, p.2))
        else if s = '\n' then some ([fr.1], r2)
        else none)

/-- Read records until the input is exhausted; the fuel bounds the number
of records, and each record may hold at most one field per character of
the remaining input, plus one. -/
def parseRecordsF : Nat → List Char → Option (List (List (List Char)))
  | 0, [] => some []
  | 0, _ :: _ => none
  | _ + 1, [] => some []
  | fuel + 1, c :: cs =>
    (parseRecordF (cs.length + 2) (c :: cs)).bind (fun fr =>
      (parseRecordsF fuel fr.2).map (fun rss => fr.1 :: rss))

/-- Modelled from the spec (§6, §8): reimport the delimited text — the
first record is the header of column names, the remaining records are the
rows. -/
def reimport (s : String) : Option (List String × List (List String)) :=
  match parseRecordsF (s.data.length + 1) s.data with
  | some (header :: rws) =>
    some (header.map (fun d => (⟨d⟩ : String)),
          rws.map (fun row => row.map (fun d => (⟨d⟩ : String))))
  | _ => none

/-! ## Example rows -/

/-- A row whose artist cell is `NaN`. -/
def rowNA : Row := ⟨some "t0", none, 2023, 5⟩

/-- First row of the tie example: artist `"B"` appears first in the data. -/
def rowB : Row := ⟨some "t1", some "B", 2023, 10⟩

/-- Second row of the tie example: artist `"A"` appears second. -/
def rowA : Row := ⟨some "t2", some "A", 2023, 10⟩

/-- A row whose track title is `"Hello"`. -/
def rowHello : Row := ⟨some "Hello", some "X", 2023, 1⟩

/-- A frame with two ordinary metric columns and one entirely-absent
numeric column. -/
def frameEmptyCol : Frame :=
  [⟨"Spotify Streams", true, [some 1, some 2]⟩,
   ⟨"YouTube Views", true, [some 2, some 1]⟩,
   ⟨"Empty Metric", true, [none, none]⟩]

/-- A two-row dataframe object with a year column and an artist column. -/
def exDF7 : PyDF :=
  ⟨["Released Year", "Artist(s)"], [["2023", "A"], ["2024", "B"]]⟩

/-- A frame with a rank column, a non-numeric column and two metric
columns. -/
def frameRank : Frame :=
  [⟨"All Time Rank", true, [some 1, some 2]⟩,
   ⟨"Track", false, []⟩,
   ⟨"Spotify Streams", true, [some 5, some 7]⟩,
   ⟨"YouTube Views", true, [some 3, some 4]⟩]

end SpotifyApp

namespace SpotifyApp

/-! ## Lemmas about stable insertion sort -/

theorem insertBy_perm (pl : α → α → Bool) (x : α) (l : List α) :
    (insertBy pl x l).Perm (x :: l) := by
  induction l with
  | nil => exact List.Perm.refl _
  | cons y ys ih =>
    cases h : pl x y with
    | true => simp [insertBy, h]
    | false =>
      simp only [insertBy, h, Bool.false_eq_true, if_false]
      exact (ih.cons y).trans (List.Perm.swap x y ys)

theorem sortBy_perm (pl : α → α → Bool) (l : List α) : (sortBy pl l).Perm l := by
  induction l with
  | nil => exact List.Perm.refl _
  | cons x t ih => exact (insertBy_perm pl x (sortBy pl t)).trans (ih.cons x)

theorem mem_insertBy (pl : α → α → Bool) (x a : α) (l : List α) :
    a ∈ insertBy pl x l ↔ a = x ∨ a ∈ l := by
  rw [(insertBy_perm pl x l).mem_iff, List.mem_cons]

theorem insertBy_pairwise (pl : α → α → Bool) (R : α → α → Prop)
    (hT : ∀ {a b}, pl a b = true → R a b)
    (hF : ∀ {a b}, pl a b = false → R b a)
    (htr : ∀ {a b c}, R a b → R b c → R a c)
    (x : α) (l : List α) (h : l.Pairwise R) : (insertBy pl x l).Pairwise R := by
  induction l with
  | nil => simp [insertBy]
  | cons y ys ih =>
    rcases List.pairwise_cons.mp h with ⟨hy, hys⟩
    cases hpl : pl x y with
    | true =>
      simp only [insertBy, hpl, if_true]
      refine List.pairwise_cons.mpr ⟨?_, h⟩
      intro z hz
      rcases List.mem_cons.mp hz with rfl | hz
      · exact hT hpl
      · exact htr (hT hpl) (hy z hz)
    | false =>
      simp only [insertBy, hpl, Bool.false_eq_true, if_false]
      refine List.pairwise_cons.mpr ⟨?_, ih hys⟩
      intro z hz
      rcases (mem_insertBy pl x z ys).mp hz with rfl | hz
      · exact hF hpl
      · exact hy z hz

theorem sortBy_pairwise (pl : α → α → Bool) (R : α → α → Prop)
    (hT : ∀ {a b}, pl a b = true → R a b)
    (hF : ∀ {a b}, pl a b = false → R b a)
    (htr : ∀ {a b c}, R a b → R b c → R a c)
    (l : List α) : (sortBy pl l).Pairwise R := by
  induction l with
  | nil => simp [sortBy]
  | cons x t ih => exact insertBy_pairwise pl R hT hF htr x (sortBy pl t) ih

theorem filter_insertBy (pl : α → α → Bool) (p : α → Bool) (x : α) (l : List α)
    (hcl : ∀ z, p x = true → p z = true → pl x z = true) :
    (insertBy pl x l).filter p = if p x then x :: l.filter p else l.filter p := by
  induction l with
  | nil => cases hx : p x <;> simp [insertBy, List.filter, hx]
  | cons y ys ih =>
    cases hpl : pl x y with
    | true =>
      cases hx : p x <;> simp [insertBy, hpl, List.filter, hx]
    | false =>
      have hxy : ¬(p x = true ∧ p y = true) := by
        rintro ⟨h1, h2⟩
        rw [hcl y h1 h2] at hpl
        exact Bool.true_eq_false.mp hpl
      simp only [insertBy, hpl, Bool.false_eq_true, if_false]
      cases hx : p x with
      | true =>
        have hy : p y = false := by
          cases hyv : p y with
          | true => exact absurd ⟨hx, hyv⟩ hxy
          | false => rfl
        simp [List.filter, hy, ih, hx]
      | false => simp [List.filter, ih, hx]

theorem sortBy_filter (pl : α → α → Bool) (p : α → Bool) (l : List α)
    (hcl : ∀ a b, p a = true → p b = true → pl a b = true) :
    (sortBy pl l).filter p = l.filter p := by
  induction l with
  | nil => rfl
  | cons x t ih =>
    have := filter_insertBy pl p x (sortBy pl t) (fun z => hcl x z)
    cases hx : p x with
    | true =>
      show (insertBy pl x (sortBy pl t)).filter p = _
      rw [this, ih, hx, if_pos rfl]
      simp [List.filter, hx]
    | false =>
      show (insertBy pl x (sortBy pl t)).filter p = _
      rw [this, ih, hx, if_neg (by simp)]
      simp [List.filter, hx]

/-! ## Lemmas about the code-point string order -/

theorem ltChars_asymm : ∀ {a b : List Char},
    ltChars a b = true → ltChars b a = false := by
  intro a
  induction a with
  | nil =>
    intro b h
    cases b with
    | nil => exact Bool.noConfusion h
    | cons d ds => rfl
  | cons c cs ih =>
    intro b h
    cases b with
    | nil => exact Bool.noConfusion h
    | cons d ds =>
      simp only [ltChars] at h ⊢
      split_ifs at h ⊢ <;>
        first
        | rfl
        | (exact ih h)
        | (exact Bool.noConfusion h)
        | (exfalso; omega)

theorem ltChars_trans : ∀ {a b c : List Char},
    ltChars a b = true → ltChars b c = true → ltChars a c = true := by
  intro a
  induction a with
  | nil =>
    intro b c h1 h2
    cases b with
    | nil => exact Bool.noConfusion h1
    | cons q qs =>
      cases c with
      | nil => exact Bool.noConfusion h2
      | cons r rs => rfl
  | cons p ps ih =>
    intro b c h1 h2
    cases b with
    | nil => exact Bool.noConfusion h1
    | cons q qs =>
      cases c with
      | nil => exact Bool.noConfusion h2
      | cons r rs =>
        simp only [ltChars] at h1 h2 ⊢
        split_ifs at h1 h2 ⊢ <;>
          first
          | rfl
          | (exact ih h1 h2)
          | (exact Bool.noConfusion h1)
          | (exact Bool.noConfusion h2)
          | (exfalso; omega)

theorem ltChars_eq_of_not_lt : ∀ {a b : List Char},
    ltChars a b = false → ltChars b a = false → a = b := by
  intro a
  induction a with
  | nil =>
    intro b h1 _
    cases b with
    | nil => rfl
    | cons d ds => exact Bool.noConfusion h1
  | cons c cs ih =>
    intro b h1 h2
    cases b with
    | nil => exact Bool.noConfusion h2
    | cons d ds =>
      simp only [ltChars] at h1 h2
      split_ifs at h1 h2 <;>
        first
        | (exact Bool.noConfusion h1)
        | (exact Bool.noConfusion h2)
        | (have hcd : c = d := Char.ext (UInt32.ext (show c.toNat = d.toNat by omega))
           rw [hcd, ih h1 h2])

theorem ltChars_not_lt_trans : ∀ {a b c : List Char},
    ltChars b a = false → ltChars c b = false → ltChars c a = false := by
  intro a b c h1 h2
  cases hca : ltChars c a with
  | false => rfl
  | true =>
    exfalso
    cases hcb : ltChars c b with
    | true => rw [hcb] at h2; exact Bool.noConfusion h2
    | false =>
      cases hbc : ltChars b c with
      | true =>
        have := ltChars_trans hbc hca
        rw [this] at h1
        exact Bool.noConfusion h1
      | false =>
        have hbceq : b = c := ltChars_eq_of_not_lt hbc hcb
        rw [hbceq, hca] at h1
        exact Bool.noConfusion h1

/-! ## Lemmas about grouping -/

theorem mem_firstSeenAux (x : String) (l : List String) : ∀ seen : List String,
    (x ∈ firstSeenAux seen l ↔ x ∈ l ∧ x ∉ seen) := by
  induction l with
  | nil => intro seen; simp [firstSeenAux]
  | cons y ys ih =>
    intro seen
    by_cases h : y ∈ seen
    · rw [firstSeenAux, if_pos h, ih seen]
      constructor
      · rintro ⟨hx, hs⟩; exact ⟨List.mem_cons_of_mem y hx, hs⟩
      · rintro ⟨hx, hs⟩
        rcases List.mem_cons.mp hx with rfl | hx
        · exact absurd h hs
        · exact ⟨hx, hs⟩
    · rw [firstSeenAux, if_neg h, List.mem_cons, ih (y :: seen)]
      constructor
      · rintro (rfl | ⟨hx, hs⟩)
        · exact ⟨List.mem_cons_self _ _, h⟩
        · exact ⟨List.mem_cons_of_mem y hx, fun hc => hs (List.mem_cons_of_mem y hc)⟩
      · rintro ⟨hx, hs⟩
        rcases List.mem_cons.mp hx with rfl | hx
        · exact Or.inl rfl
        · by_cases hxy : x = y
          · exact Or.inl hxy
          · exact Or.inr ⟨hx, by simp [List.mem_cons, hxy, hs]⟩

theorem nodup_firstSeenAux (l : List String) : ∀ seen : List String,
    (firstSeenAux seen l).Nodup := by
  induction l with
  | nil => intro seen; simp [firstSeenAux]
  | cons y ys ih =>
    intro seen
    by_cases h : y ∈ seen
    · rw [firstSeenAux, if_pos h]; exact ih seen
    · rw [firstSeenAux, if_neg h]
      refine List.nodup_cons.mpr ⟨?_, ih (y :: seen)⟩
      intro hy
      exact ((mem_firstSeenAux y ys (y :: seen)).mp hy).2 (List.mem_cons_self y seen)

theorem groupKeys_nodup (df : List Row) : (groupKeys df).Nodup :=
  ((sortBy_perm _ _).nodup_iff).mpr (nodup_firstSeenAux _ [])

theorem mem_groupKeys (a : String) (df : List Row) :
    a ∈ groupKeys df ↔ a ∈ presentArtists df := by
  rw [groupKeys, sortStrings, (sortBy_perm _ _).mem_iff, firstSeen,
    mem_firstSeenAux a _ []]
  simp

theorem length_filter_split (p q : α → Bool) (l : List α) :
    (l.filter p).length =
      (l.filter (fun a => p a && q a)).length +
      (l.filter (fun a => p a && !q a)).length := by
  induction l with
  | nil => rfl
  | cons x t ih =>
    cases hp : p x <;> cases hq : q x <;>
      simp [List.filter, hp, hq, ih] <;> omega

theorem sum_groupCount (ks : List String) : ∀ df : List Row, ks.Nodup →
    (∀ r ∈ df, ∀ a : String, r.artist = some a → a ∈ ks) →
    (ks.map (groupCount df)).sum = (df.filter (fun r => r.artist.isSome)).length := by
  induction ks with
  | nil =>
    intro df _ hcov
    have hnil : df.filter (fun r => r.artist.isSome) = [] := by
      rw [List.filter_eq_nil_iff]
      intro r hr hs
      match ha : r.artist with
      | none => rw [ha] at hs; exact Bool.true_eq_false.mp hs.symm
      | some a => exact absurd (hcov r hr a ha) (List.not_mem_nil a)
    rw [hnil]
    rfl
  | cons k ks ih =>
    intro df hnd hcov
    have hkne : k ∉ ks := (List.nodup_cons.mp hnd).1
    have hnd' : ks.Nodup := (List.nodup_cons.mp hnd).2
    have hmap : ks.map (groupCount df) =
        ks.map (groupCount (df.filter (fun r => !decide (r.artist = some k)))) := by
      apply List.map_congr_left
      intro k' hk'
      have hne : k' ≠ k := fun h => hkne (h ▸ hk')
      show (df.filter _).length = ((df.filter _).filter _).length
      rw [List.filter_filter]
      congr 1
      apply List.filter_congr
      intro r _
      by_cases h : r.artist = some k'
      · simp [h, Option.some_inj, hne]
      · simp [h]
    have hcov' : ∀ r ∈ df.filter (fun r => !decide (r.artist = some k)),
        ∀ a : String, r.artist = some a → a ∈ ks := by
      intro r hr a ha
      rcases List.mem_filter.mp hr with ⟨hrdf, hrk⟩
      have hak : a ≠ k := by
        intro h
        rw [h] at ha
        simp [ha] at hrk
      rcases List.mem_cons.mp (hcov r hrdf a ha) with h | h
      · exact absurd h hak
      · exact h
    rw [List.map_cons, List.sum_cons, hmap,
      ih (df.filter (fun r => !decide (r.artist = some k))) hnd' hcov']
    have hsplit := length_filter_split (fun r : Row => r.artist.isSome)
      (fun r => decide (r.artist = some k)) df
    have h1 : df.filter (fun r => r.artist.isSome && decide (r.artist = some k)) =
        df.filter (fun r => decide (r.artist = some k)) := by
      apply List.filter_congr
      intro r _
      by_cases h : r.artist = some k
      · simp [h]
      · simp [h]
    have h2 : (df.filter (fun r => !decide (r.artist = some k))).filter
          (fun r => r.artist.isSome) =
        df.filter (fun r => r.artist.isSome && !decide (r.artist = some k)) := by
      rw [List.filter_filter]
    rw [h2]
    rw [h1] at hsplit
    show ((df.filter (fun r => decide (r.artist = some k))).length) + _ = _
    omega

/-! ## Theorems for claims C1, C2, C3 -/

/-- C3: a categorical membership filter whose operand set is empty is the
identity: the year filter and the artist filter with an empty multi-select
both return the dataset unchanged row-for-row. -/
theorem c3_empty_filter_identity (df : List Row) :
    filter_years [] df = df ∧ filter_artists [] df = df := by
  constructor <;> simp [filter_years, filter_artists]

/-- C1 counterexample: no cache exists, so two structurally identical calls
of the aggregation entry point trigger the computation twice, not once
(the results are nevertheless identical). -/
theorem c1_counterexample :
    (artist_analysis_twice [rowB, rowA]).2 = 2 ∧
    ¬ (artist_analysis_twice [rowB, rowA]).2 = 1 ∧
    (artist_analysis_twice [rowB, rowA]).1.1 =
      (artist_analysis_twice [rowB, rowA]).1.2 :=
  ⟨by decide, by decide, rfl⟩

/-- C1 amended: calling the aggregation entry point twice with structurally
identical input returns identical results, but each call performs a fresh
computation — after two calls the computation counter is 2, because the
code has no fingerprint cache at all. -/
theorem c1_amended (df : List Row) :
    (artist_analysis_twice df).1.1 = (artist_analysis_twice df).1.2 ∧
    (artist_analysis_twice df).2 = 2 :=
  ⟨rfl, rfl⟩

/-- C2 amended: `groupby` partitions only the records whose group cell is
present: summing the per-group counts over all groups equals the number of
records with a present group value, while absent-valued records are
silently dropped (no "unknown" group is formed). -/
theorem c2_amended (df : List Row) :
    ((groupKeys df).map (groupCount df)).sum =
      (df.filter (fun r => r.artist.isSome)).length := by
  apply sum_groupCount (groupKeys df) df (groupKeys_nodup df)
  intro r hr a ha
  rw [mem_groupKeys]
  exact List.mem_filterMap.mpr ⟨r, hr, ha⟩

/-- C2 counterexample: a record whose group-column cell is absent is
silently dropped by `groupby` (pandas `dropna=True`): it forms no
"unknown" group, and the per-group counts sum to 0 while the dataset has
1 record. -/
theorem c2_counterexample :
    groupKeys [rowNA] = [] ∧
    ((groupKeys [rowNA]).map (groupCount [rowNA])).sum = 0 ∧
    [rowNA].length = 1 := by
  decide

/-- C4 counterexample: with the dataset `[rowB, rowA]` (artist `"B"`
first, both groups summing to 10) the claim's first-seen tie-breaking
demands `[("B", 10), ("A", 10)]`, but `create_artist_analysis` returns
`[("A", 10), ("B", 10)]`, because `groupby` sorts the group keys
ascending before the value sort. -/
theorem c4_counterexample :
    create_artist_analysis [rowB, rowA] = [("A", 10), ("B", 10)] ∧
    rankedResultSpec [rowB, rowA] = [("B", 10), ("A", 10)] := by
  constructor <;> rfl

/-- C4 amended: both top-N selections sort descending by the reduced value
and truncate (all groups are kept, without error, when fewer than the
requested count exist); `create_top_charts` (row-level `nlargest`,
`keep='first'`) breaks ties by first-seen row order, but
`create_artist_analysis` does not break ties by first-seen group order:
the groups enter the value sort in ascending key order
(`groupby(sort=True)`) and `sort_values`' default quicksort documents no
tie order, so on the counterexample the program returns key order, not
first-seen order. -/
theorem c4_amended (df : List Row) (n : Nat) :
    (create_artist_analysis df).length ≤ 15 ∧
    (create_top_charts df n).length ≤ n ∧
    ((artist_streams df).length ≤ 15 →
      (create_artist_analysis df).Perm (artist_streams df)) ∧
    (df.length ≤ n → (create_top_charts df n).Perm df) ∧
    List.Pairwise (fun a b : String × Int => b.2 ≤ a.2)
      (create_artist_analysis df) ∧
    List.Pairwise (fun a b : Row => b.streams ≤ a.streams)
      (create_top_charts df n) ∧
    (∀ v : Int, (rowsDesc df).filter (fun r => decide (r.streams = v)) =
      df.filter (fun r => decide (r.streams = v))) := by
  have hsortp : (sortValsDesc (artist_streams df)).Perm (artist_streams df) :=
    sortBy_perm _ _
  have hrowp : (rowsDesc df).Perm df := sortBy_perm _ _
  refine ⟨List.length_take_le _ _, List.length_take_le _ _, ?_, ?_, ?_, ?_, ?_⟩
  · intro h15
    rw [create_artist_analysis,
      List.take_of_length_le (hsortp.length_eq ▸ h15)]
    exact hsortp
  · intro hn
    rw [create_top_charts, nlargestRows,
      List.take_of_length_le (hrowp.length_eq ▸ hn)]
    exact hrowp
  · refine List.Pairwise.sublist (List.take_sublist _ _) ?_
    apply sortBy_pairwise
    · intro a b h; exact of_decide_eq_true h
    · intro a b h; exact le_of_not_le (of_decide_eq_false h)
    · intro a b c h1 h2; exact h2.trans h1
  · refine List.Pairwise.sublist (List.take_sublist _ _) ?_
    apply sortBy_pairwise
    · intro a b h; exact of_decide_eq_true h
    · intro a b h; exact le_of_not_le (of_decide_eq_false h)
    · intro a b c h1 h2; exact h2.trans h1
  · intro v
    apply sortBy_filter
    intro a b ha hb
    have ha' : a.streams = v := of_decide_eq_true ha
    have hb' : b.streams = v := of_decide_eq_true hb
    exact decide_eq_true (by rw [ha', hb'])

/-- C4 witness: the amended theorem applied to the two-row tie dataset with
`topN = 2` exceeding nothing: both conditional permutation clauses fire. -/
theorem c4_witness :
    (create_artist_analysis [rowB, rowA]).Perm (artist_streams [rowB, rowA]) ∧
    (create_top_charts [rowB, rowA] 2).Perm [rowB, rowA] := by
  have h := c4_amended [rowB, rowA] 2
  exact ⟨h.2.2.1 (by decide), h.2.2.2.1 (by decide)⟩

/-! ## Lemmas about the correlation path -/

theorem map_fst_pairs {β : Type} (l : List String) (f : String → β) :
    ((l.map (fun c => (c, f c))).map (fun r => r.1)) = l := by
  induction l with
  | nil => rfl
  | cons x t ih => simp only [List.map_cons, ih]

theorem completePairs_left_none (xs ys : List (Option Int))
    (hx : ∀ x ∈ xs, x = none) : completePairs xs ys = [] := by
  rw [completePairs, List.filterMap_eq_nil_iff]
  intro p hp
  rcases p with ⟨a, b⟩
  have ha : a = none := hx a (List.of_mem_zip hp).1
  subst ha
  cases b <;> rfl

theorem pearson_left_none (xs ys : List (Option Int))
    (hx : ∀ x ∈ xs, x = none) : pearsonSq xs ys = none := by
  rw [pearsonSq, completePairs_left_none xs ys hx]
  rfl

theorem heatmap_eq_matrix (df : Frame) (m : List (String × List (String × Option ℚ)))
    (hm : create_correlation_heatmap df = some m) : m = correlation_matrix df := by
  unfold create_correlation_heatmap at hm
  split_ifs at hm
  exact (Option.some.inj hm).symm

/-- C5 counterexample: on `frameEmptyCol`, whose `"Empty Metric"` column is
entirely absent-valued, the matrix is produced with that column included
as a label, and its row and column consist of absent (`NaN`) entries: the
code never excludes it and reports no `excludedColumns` list. -/
theorem c5_counterexample :
    create_correlation_heatmap frameEmptyCol =
      some (correlation_matrix frameEmptyCol) ∧
    (correlation_matrix frameEmptyCol).map (fun r => r.1) =
      ["Spotify Streams", "YouTube Views", "Empty Metric"] ∧
    (correlation_matrix frameEmptyCol).map
      (fun r => (r.1, r.2.map (fun e => (e.1, e.2.isSome)))) =
      [("Spotify Streams",
        [("Spotify Streams", true), ("YouTube Views", true),
         ("Empty Metric", false)]),
       ("YouTube Views",
        [("Spotify Streams", true), ("YouTube Views", true),
         ("Empty Metric", false)]),
       ("Empty Metric",
        [("Spotify Streams", false), ("YouTube Views", false),
         ("Empty Metric", false)])] :=
  ⟨rfl, rfl, rfl⟩

/-- C5 amended: the produced matrix keeps every selected numeric non-rank
column — including entirely absent-valued ones, which are not excluded and
for which no `excludedColumns` diagnostic exists in the result — and the
row of an entirely absent-valued column consists of absent (`NaN`)
entries. -/
theorem c5_amended (df : Frame) (m : List (String × List (String × Option ℚ)))
    (hm : create_correlation_heatmap df = some m) :
    m.map (fun r => r.1) = corr_cols df ∧
    ∀ c1 rowE, (c1, rowE) ∈ m →
      rowE.map (fun e => e.1) = corr_cols df ∧
      ((∀ x ∈ colCells df c1, x = none) → ∀ e ∈ rowE, e.2 = none) := by
  have hmm : m = correlation_matrix df := heatmap_eq_matrix df m hm
  subst hmm
  constructor
  · exact map_fst_pairs _ _
  · intro c1 rowE hmem
    rw [correlation_matrix] at hmem
    rcases List.mem_map.mp hmem with ⟨c, hc, hceq⟩
    have hc1 : c = c1 := congrArg Prod.fst hceq
    have hrow : rowE = (corr_cols df).map (fun c2 =>
        (c2, pearsonSq (colCells df c) (colCells df c2))) :=
      (congrArg Prod.snd hceq).symm
    subst hc1
    constructor
    · rw [hrow]
      exact map_fst_pairs _ _
    · intro hnone e he
      rw [hrow] at he
      rcases List.mem_map.mp he with ⟨c2, hc2, heq⟩
      rw [← heq]
      exact pearson_left_none _ _ hnone

/-- C5 witness: the amended theorem applied to `frameEmptyCol` yields the
absent entry between the all-absent column and an ordinary one. -/
theorem c5_witness :
    pearsonSq (colCells frameEmptyCol "Empty Metric")
      (colCells frameEmptyCol "Spotify Streams") = none := by
  have h := c5_amended frameEmptyCol (correlation_matrix frameEmptyCol) rfl
  have hrow := h.2 "Empty Metric"
    ((corr_cols frameEmptyCol).map (fun c2 =>
      (c2, pearsonSq (colCells frameEmptyCol "Empty Metric")
        (colCells frameEmptyCol c2))))
    (List.mem_map_of_mem _ (by decide))
  exact hrow.2 (by decide)
    ("Spotify Streams",
      pearsonSq (colCells frameEmptyCol "Empty Metric")
        (colCells frameEmptyCol "Spotify Streams"))
    (List.mem_map_of_mem _ (by decide))

/-- C10: the correlation matrix is computed only over numeric columns whose
names contain neither `"Rank"` nor `"rank"`; every rank column is omitted
from the labels, and no matrix at all is produced when fewer than two
non-rank numeric columns exist. -/
theorem c10_rank_filter (df : Frame) :
    ((corr_cols df).length < 2 → create_correlation_heatmap df = none) ∧
    ((create_correlation_heatmap df).isSome ↔ 2 ≤ (corr_cols df).length) ∧
    (∀ m, create_correlation_heatmap df = some m →
      m.map (fun r => r.1) = corr_cols df) ∧
    (∀ c ∈ corr_cols df, c ∈ numeric_cols df ∧
      containsSub c "Rank" = false ∧ containsSub c "rank" = false) := by
  have hsub : (corr_cols df).length ≤ (numeric_cols df).length :=
    List.length_filter_le _ _
  refine ⟨?_, ?_, ?_, ?_⟩
  · intro hlt
    unfold create_correlation_heatmap
    split_ifs with h1 h2
    · omega
    · rfl
    · rfl
  · unfold create_correlation_heatmap
    split_ifs with h1 h2 <;> simp <;> omega
  · intro m hm
    have hmm := heatmap_eq_matrix df m hm
    subst hmm
    exact map_fst_pairs _ _
  · intro c hc
    rcases List.mem_filter.mp hc with ⟨hmem, hbool⟩
    rw [Bool.and_eq_true] at hbool
    have h1 := hbool.1
    have h2 := hbool.2
    refine ⟨hmem, ?_, ?_⟩
    · cases hA : containsSub c "Rank" with
      | false => rfl
      | true => rw [hA] at h1; exact Bool.noConfusion h1
    · cases hA : containsSub c "rank" with
      | false => rfl
      | true => rw [hA] at h2; exact Bool.noConfusion h2

/-- C10 witness: on `frameRank` the matrix exists and its labels are the
two metric columns, with `"All Time Rank"` omitted. -/
theorem c10_witness :
    create_correlation_heatmap frameRank ≠ none ∧
    (correlation_matrix frameRank).map (fun r => r.1) =
      ["Spotify Streams", "YouTube Views"] := by
  have h := c10_rank_filter frameRank
  constructor
  · intro hn
    have hs := (h.2.1).mpr (by decide)
    rw [hn] at hs
    simp at hs
  · have hm := h.2.2.1 (correlation_matrix frameRank) rfl
    rw [hm]
    decide

/-- C6: the search treats the query as a regular expression, not a literal
substring: the query `"."` matches the title `"Hello"` (the `'.'`
metacharacter matches any character), although `"Hello"` contains no
literal `"."`; the empty query does return the frame unchanged. -/
theorem c6_code_bug :
    searchTracks [rowHello] "." = [rowHello] ∧
    searchSpecMatch "Hello" "." = false ∧
    searchTracks [rowHello] "" = [rowHello] :=
  ⟨rfl, by decide, rfl⟩

/-! ## Lemmas for the heap model (C7, C8) -/

theorem take_append_self (l1 l2 : List α) : (l1 ++ l2).take l1.length = l1 := by
  induction l1 with
  | nil => rfl
  | cons x t ih => simp [ih]

theorem get?_append_self (l1 l2 : List α) :
    (l1 ++ l2).get? l1.length = l2.get? 0 := by
  induction l1 with
  | nil => rfl
  | cons x t ih => simpa using ih

theorem dropWhile_head_not (p : α → Bool) (l : List α) :
    ∀ x, (l.dropWhile p).head? = some x → p x = false := by
  induction l with
  | nil => intro x h; exact Option.noConfusion h
  | cons c cs ih =>
    intro x h
    rw [List.dropWhile_cons] at h
    by_cases hc : p c = true
    · rw [if_pos hc] at h
      exact ih x h
    · rw [if_neg hc] at h
      have hcx : c = x := by simpa using h
      rw [← hcx]
      cases hpc : p c with
      | false => rfl
      | true => exact absurd hpc hc

theorem getLast?_of_dropWhile (p : α → Bool) (l : List α) :
    ∀ x, (l.dropWhile p).getLast? = some x → l.getLast? = some x := by
  induction l with
  | nil => intro x h; exact Option.noConfusion h
  | cons c cs ih =>
    intro x h
    rw [List.dropWhile_cons] at h
    by_cases hc : p c = true
    · rw [if_pos hc] at h
      have hcs := ih x h
      cases cs with
      | nil => exact Option.noConfusion hcs
      | cons b t => rw [List.getLast?_cons_cons]; exact hcs
    · rw [if_neg hc] at h
      exact h

theorem stripStr_head (s : String) (ch : Char)
    (h : (stripStr s).data.head? = some ch) : isWsChar ch = false := by
  have h1 : ((s.data.dropWhile isWsChar).reverse.dropWhile isWsChar).reverse.head?
      = some ch := h
  rw [List.head?_reverse] at h1
  have h2 := getLast?_of_dropWhile isWsChar _ ch h1
  rw [List.getLast?_reverse] at h2
  exact dropWhile_head_not isWsChar _ ch h2

theorem stripStr_last (s : String) (ch : Char)
    (h : (stripStr s).data.getLast? = some ch) : isWsChar ch = false := by
  have h1 : ((s.data.dropWhile isWsChar).reverse.dropWhile isWsChar).reverse.getLast?
      = some ch := h
  rw [List.getLast?_reverse] at h1
  exact dropWhile_head_not isWsChar _ ch h1

/-- C7 counterexample: `process_dataframe` mutates its input object: it
returns the same reference, and the object behind that reference has had
its column names stripped in place (before: `" A "`; after: `"A"`). -/
theorem c7_counterexample :
    (process_dataframe [⟨[" A "], [["x"]]⟩] 0).2 = 0 ∧
    ([⟨[" A "], [["x"]]⟩] : Heap).get? 0 = some ⟨[" A "], [["x"]]⟩ ∧
    ((process_dataframe [⟨[" A "], [["x"]]⟩] 0).1.get? 0).map PyDF.cols =
      some ["A"] ∧
    some [" A "] ≠ some ["A"] :=
  ⟨rfl, rfl, rfl, by decide⟩

/-- C7 amended: `process_dataframe` is not pure — it strips the column
names of its input object in place and returns the same reference — while
every subsequent operation returns a fresh object: the year filter and
the artist filter leave every existing heap entry unchanged and allocate
their filtered frame at a new reference, and the aggregation writes no
existing object and returns its ranked result as a fresh value. -/
theorem c7_amended (h : Heap) (r : Nat) (df : PyDF) (ys : List Int)
    (k ka : Nat) (sel : List String)
    (rh : RowHeap) (rr : Nat) (rdf : List Row)
    (hr : h.get? r = some df) (hys : ys ≠ [])
    (hk : colIdx df.cols "Released Year" = some k)
    (hka : colIdx df.cols "Artist(s)" = some ka) (hsel : sel ≠ [])
    (hrd : rh.get? rr = some rdf) :
    (process_dataframe h r).2 = r ∧
    (process_dataframe h r).1 = h.set r (process_df_pure df) ∧
    (filter_years_heap h r ys).1.take h.length = h ∧
    (filter_years_heap h r ys).2 = h.length ∧
    (filter_years_heap h r ys).1.get? h.length =
      some ⟨df.cols, df.cells.filter (fun row => cellYearIn row k ys)⟩ ∧
    (filter_artists_heap h r sel).1.take h.length = h ∧
    (filter_artists_heap h r sel).2 = h.length ∧
    (filter_artists_heap h r sel).1.get? h.length =
      some ⟨df.cols, df.cells.filter (fun row => cellArtistIn row ka sel)⟩ ∧
    (artist_analysis_heap rh rr).1 = rh ∧
    (artist_analysis_heap rh rr).2 = create_artist_analysis rdf := by
  have hp : process_dataframe h r = (h.set r (process_df_pure df), r) := by
    unfold process_dataframe
    rw [hr]
  have hf : filter_years_heap h r ys =
      (h ++ [⟨df.cols, df.cells.filter (fun row => cellYearIn row k ys)⟩],
       h.length) := by
    simp only [filter_years_heap, hr, hk, if_neg hys]
  have hfa : filter_artists_heap h r sel =
      (h ++ [⟨df.cols, df.cells.filter (fun row => cellArtistIn row ka sel)⟩],
       h.length) := by
    simp only [filter_artists_heap, hr, hka, if_neg hsel]
  have hag : artist_analysis_heap rh rr = (rh, create_artist_analysis rdf) := by
    unfold artist_analysis_heap
    rw [hrd]
  rw [hp, hf, hfa, hag]
  refine ⟨rfl, rfl, take_append_self h _, rfl, ?_,
    take_append_self h _, rfl, ?_, rfl, rfl⟩
  · rw [get?_append_self]
    rfl
  · rw [get?_append_self]
    rfl

/-- C7 witness: the amended theorem applied to a one-object heap holding a
two-row frame (year and artist filters both fire and allocate fresh
objects) and to a one-dataset row store for the aggregation. -/
theorem c7_witness :
    (filter_years_heap [exDF7] 0 [2023]).1.get? 1 =
      some ⟨["Released Year", "Artist(s)"], [["2023", "A"]]⟩ ∧
    (filter_artists_heap [exDF7] 0 ["B"]).1.get? 1 =
      some ⟨["Released Year", "Artist(s)"], [["2024", "B"]]⟩ ∧
    (artist_analysis_heap [[rowB, rowA]] 0).1 = [[rowB, rowA]] ∧
    (artist_analysis_heap [[rowB, rowA]] 0).2 = [("A", 10), ("B", 10)] ∧
    (process_dataframe [exDF7] 0).1 = [exDF7] := by
  have h := c7_amended [exDF7] 0 exDF7 [2023] 0 1 ["B"]
    [[rowB, rowA]] 0 [rowB, rowA] rfl (by decide) rfl rfl (by decide) rfl
  exact ⟨h.2.2.2.2.1, h.2.2.2.2.2.2.2.1, h.2.2.2.2.2.2.2.2.1,
    h.2.2.2.2.2.2.2.2.2.trans rfl, h.2.1⟩

/-- C8 counterexample: normalization strips the column names but leaves
the string cell values untouched: the cell `" Hello "` survives verbatim
although its stripped form differs. -/
theorem c8_counterexample :
    (process_df_pure ⟨["Track"], [[" Hello "]]⟩).cols = ["Track"] ∧
    (process_df_pure ⟨["Track"], [[" Hello "]]⟩).cells = [[" Hello "]] ∧
    stripStr " Hello " = "Hello" ∧
    [[" Hello "]] ≠ [["Hello"]] :=
  ⟨by decide, rfl, by decide, by decide⟩

/-- C8 amended: normalization strips leading and trailing whitespace from
every column name — each resulting name is the stripped form of the
original and carries no whitespace at either end — but string cell values
are left unchanged. -/
theorem c8_amended (df : PyDF) (c : String) (ch : Char)
    (hc : c ∈ (process_df_pure df).cols) :
    (process_df_pure df).cells = df.cells ∧
    (process_df_pure df).cols = df.cols.map stripStr ∧
    (c.data.head? = some ch → isWsChar ch = false) ∧
    (c.data.getLast? = some ch → isWsChar ch = false) := by
  refine ⟨rfl, rfl, ?_, ?_⟩
  · intro hh
    rcases List.mem_map.mp hc with ⟨c0, _, hc0⟩
    rw [← hc0] at hh
    exact stripStr_head c0 ch hh
  · intro hh
    rcases List.mem_map.mp hc with ⟨c0, _, hc0⟩
    rw [← hc0] at hh
    exact stripStr_last c0 ch hh

/-- C8 witness: the amended theorem applied to a frame whose only column
name carries edge whitespace. -/
theorem c8_witness :
    (process_df_pure ⟨[" Spotify Streams "], [["9"]]⟩).cells = [["9"]] ∧
    isWsChar 'S' = false := by
  have h := c8_amended ⟨[" Spotify Streams "], [["9"]]⟩ "Spotify Streams" 'S'
    (by decide)
  exact ⟨h.1, h.2.2.1 (by decide)⟩

/-! ## Lemmas for the CSV round trip (C9) -/

theorem parseUnquoted_plain (f : List Char) :
    ∀ rest : List Char, f.any isCsvSpecial = false →
    (rest.head? = some ',' ∨ rest.head? = some '\n') →
    parseUnquoted (f ++ rest) = (f, rest) := by
  induction f with
  | nil =>
    intro rest _ hrest
    cases rest with
    | nil => rcases hrest with h | h <;> exact Option.noConfusion h
    | cons x xs =>
      rcases hrest with h | h
      · have hx : x = ',' := Option.some.inj h
        subst hx
        rfl
      · have hx : x = '\n' := Option.some.inj h
        subst hx
        rfl
  | cons c f' ih =>
    intro rest hf hrest
    rw [List.any_cons] at hf
    have hc : isCsvSpecial c = false := by
      cases hcc : isCsvSpecial c with
      | false => rfl
      | true => rw [hcc] at hf; exact Bool.noConfusion hf
    have hf' : f'.any isCsvSpecial = false := by
      cases hff : f'.any isCsvSpecial with
      | false => rfl
      | true => rw [hff] at hf; simp at hf
    have hcs : (c = ',' || c = '\n') = false := by
      simp only [isCsvSpecial] at hc
      cases h1 : decide (c = ',') <;> cases h2 : decide (c = '\n') <;>
        simp_all
    show parseUnquoted (c :: (f' ++ rest)) = (c :: f', rest)
    rw [parseUnquoted]
    rw [hcs]
    simp only [Bool.false_eq_true, if_false, ih rest hf' hrest]

theorem parseQuoted_two_quotes (X : List Char) :
    parseQuoted ('"' :: '"' :: X) =
      (parseQuoted X).map (fun p => ('"' :: p.1, p.2)) := rfl

theorem parseQuoted_close (d : Char) (ds : List Char) (hd : ¬ d = '"') :
    parseQuoted ('"' :: d :: ds) = some ([], d :: ds) := by
  show (if d = '"' then (parseQuoted ds).map (fun p => ('"' :: p.1, p.2))
        else some ([], d :: ds)) = some ([], d :: ds)
  rw [if_neg hd]

theorem parseQuoted_cons_eq (c : Char) (rest : List Char) :
    parseQuoted (c :: rest) =
      if c = '"' then
        (match rest with
         | d :: rest2 =>
           if d = '"' then (parseQuoted rest2).map (fun p => ('"' :: p.1, p.2))
           else some ([], d :: rest2)
         | [] => some ([], []))
      else (parseQuoted rest).map (fun p => (c :: p.1, p.2)) := by
  rw [parseQuoted.eq_def]

theorem parseQuoted_cons_ne (c : Char) (rest : List Char) (hc : ¬ c = '"') :
    parseQuoted (c :: rest) =
      (parseQuoted rest).map (fun p => (c :: p.1, p.2)) := by
  rw [parseQuoted_cons_eq, if_neg hc]

theorem parseQuoted_dupQuotes (f : List Char) :
    ∀ rest : List Char, rest.head? ≠ some '"' →
    parseQuoted (dupQuotes f ++ '"' :: rest) = some (f, rest) := by
  induction f with
  | nil =>
    intro rest hrest
    show parseQuoted ('"' :: rest) = some ([], rest)
    cases rest with
    | nil => rfl
    | cons d ds =>
      have hd : ¬ d = '"' := fun hdq => hrest (by subst hdq; rfl)
      exact parseQuoted_close d ds hd
  | cons c f' ih =>
    intro rest hrest
    by_cases hc : c = '"'
    · subst hc
      have hshape : dupQuotes ('"' :: f') ++ '"' :: rest =
          '"' :: '"' :: (dupQuotes f' ++ '"' :: rest) := by
        simp [dupQuotes]
      rw [hshape, parseQuoted_two_quotes, ih rest hrest]
      rfl
    · have hshape : dupQuotes (c :: f') ++ '"' :: rest =
          c :: (dupQuotes f' ++ '"' :: rest) := by
        simp [dupQuotes, hc]
      rw [hshape, parseQuoted_cons_ne c _ hc, ih rest hrest]
      rfl

theorem parseField_quoted (rest : List Char) :
    parseField ('"' :: rest) = parseQuoted rest := rfl

theorem parseField_cons_ne (c : Char) (rest : List Char) (hc : ¬ c = '"') :
    parseField (c :: rest) = some (parseUnquoted (c :: rest)) := by
  show (if c = '"' then parseQuoted rest
        else some (parseUnquoted (c :: rest))) = _
  rw [if_neg hc]

theorem parseField_escape (f rest : List Char)
    (hrest : rest.head? = some ',' ∨ rest.head? = some '\n') :
    parseField (escapeFieldChars f ++ rest) = some (f, rest) := by
  have hrq : rest.head? ≠ some '"' := by
    rcases hrest with h | h <;> rw [h] <;> intro hx <;>
      exact absurd (Option.some.inj hx) (by decide)
  by_cases hq : f.any isCsvSpecial = true
  · rw [escapeFieldChars, if_pos hq]
    have hshape : ('"' :: (dupQuotes f ++ ['"'])) ++ rest =
        '"' :: (dupQuotes f ++ '"' :: rest) := by
      simp
    rw [hshape, parseField_quoted]
    exact parseQuoted_dupQuotes f rest hrq
  · rw [escapeFieldChars, if_neg hq]
    have hq' : f.any isCsvSpecial = false := by
      cases hqq : f.any isCsvSpecial with
      | false => rfl
      | true => exact absurd hqq hq
    cases f with
    | nil =>
      cases rest with
      | nil => rcases hrest with h | h <;> exact Option.noConfusion h
      | cons x xs =>
        rcases hrest with h | h
        · have hx : x = ',' := Option.some.inj h
          subst hx
          rfl
        · have hx : x = '\n' := Option.some.inj h
          subst hx
          rfl
    | cons c f' =>
      have hc : ¬ c = '"' := by
        intro hcq
        rw [List.any_cons, hcq] at hq'
        simp [isCsvSpecial] at hq'
      rw [List.cons_append, parseField_cons_ne c _ hc, ← List.cons_append,
        parseUnquoted_plain (c :: f') rest hq' hrest]

theorem parseRecordF_csvLine (fs : List (List Char)) :
    ∀ (rest : List Char) (fuel : Nat), fs ≠ [] → fs.length ≤ fuel →
    parseRecordF fuel (csvLineChars fs ++ rest) = some (fs, rest) := by
  induction fs with
  | nil => intro rest fuel h _; exact absurd rfl h
  | cons f fs' ih =>
    intro rest fuel _ hlen
    cases fuel with
    | zero => simp at hlen
    | succ fu =>
      cases fs' with
      | nil =>
        have hshape : csvLineChars [f] ++ rest =
            escapeFieldChars f ++ ('\n' :: rest) := by
          simp [csvLineChars, csvJoinFields]
        rw [hshape, parseRecordF,
          parseField_escape f ('\n' :: rest) (Or.inr rfl)]
        rfl
      | cons g fs'' =>
        have hshape : csvLineChars (f :: g :: fs'') ++ rest =
            escapeFieldChars f ++
              (',' :: (csvLineChars (g :: fs'') ++ rest)) := by
          simp [csvLineChars, csvJoinFields]
        rw [hshape, parseRecordF,
          parseField_escape f (',' :: (csvLineChars (g :: fs'') ++ rest))
            (Or.inl rfl)]
        show (parseRecordF fu (csvLineChars (g :: fs'') ++ rest)).map
            (fun p => (f :: p.1, p.2)) = some (f :: g :: fs'', rest)
        rw [ih rest fu (by simp) (by simpa using hlen)]
        rfl

theorem csvLine_length (fs : List (List Char)) :
    fs.length ≤ (csvLineChars fs).length := by
  induction fs with
  | nil => simp [csvLineChars, csvJoinFields]
  | cons f fs' ih =>
    cases fs' with
    | nil => simp [csvLineChars, csvJoinFields]
    | cons g t =>
      simp only [csvLineChars, csvJoinFields, List.length_append,
        List.length_cons] at ih ⊢
      omega

theorem csvLine_length_pos (fs : List (List Char)) :
    0 < (csvLineChars fs).length := by
  simp [csvLineChars]

theorem lines_length_le (liness : List (List (List Char))) :
    liness.length ≤ ((liness.map csvLineChars).flatten).length := by
  induction liness with
  | nil => simp
  | cons fs rest ih =>
    have hpos := csvLine_length_pos fs
    simp only [List.map_cons, List.flatten_cons, List.length_append,
      List.length_cons]
    omega

theorem parseRecordsF_lines (liness : List (List (List Char))) :
    ∀ fuel : Nat, (∀ fs ∈ liness, fs ≠ []) → liness.length ≤ fuel →
    parseRecordsF fuel ((liness.map csvLineChars).flatten) = some liness := by
  induction liness with
  | nil =>
    intro fuel _ _
    cases fuel <;> rfl
  | cons fs rest ih =>
    intro fuel hne hlen
    cases fuel with
    | zero => simp at hlen
    | succ fu =>
      have hfs : fs ≠ [] := hne fs (List.mem_cons_self _ _)
      have hflat : ((fs :: rest).map csvLineChars).flatten =
          csvLineChars fs ++ (rest.map csvLineChars).flatten := by
        simp
      obtain ⟨c, cs, hcc⟩ : ∃ c cs,
          csvLineChars fs ++ (rest.map csvLineChars).flatten = c :: cs := by
        cases hll : csvLineChars fs ++ (rest.map csvLineChars).flatten with
        | nil =>
          exfalso
          have hp := csvLine_length_pos fs
          have h0 : csvLineChars fs = [] := (List.append_eq_nil.mp hll).1
          rw [h0] at hp
          simp at hp
        | cons c cs => exact ⟨c, cs, rfl⟩
      rw [hflat, hcc]
      have hrec : parseRecordF (cs.length + 2) (c :: cs) =
          some (fs, (rest.map csvLineChars).flatten) := by
        rw [← hcc]
        apply parseRecordF_csvLine fs _ _ hfs
        have h1 := csvLine_length fs
        have h2 := congrArg List.length hcc
        rw [List.length_append, List.length_cons] at h2
        omega
      rw [parseRecordsF, hrec]
      show (parseRecordsF fu ((rest.map csvLineChars).flatten)).map
          (fun rss => fs :: rss) = some (fs :: rest)
      rw [ih fu (fun a ha => hne a (List.mem_cons_of_mem _ ha))
        (by simpa using hlen)]
      rfl

theorem map_data_mk (l : List String) :
    (l.map (fun s => s.data)).map (fun d => (⟨d⟩ : String)) = l := by
  induction l with
  | nil => rfl
  | cons s t ih =>
    cases s
    simp only [List.map_cons, ih]

theorem map_map_data_mk (rows : List (List String)) :
    (rows.map (fun row => row.map (fun s => s.data))).map
      (fun row => row.map (fun d => (⟨d⟩ : String))) = rows := by
  induction rows with
  | nil => rfl
  | cons r t ih =>
    simp only [List.map_cons, ih, map_data_mk]

/-- C9: exporting a dataset to the delimited text `to_csv` writes and
reimporting it yields back exactly the same column names and the same rows
in the same order, for every rectangular dataset with at least one
column — including fields that need quoting. -/
theorem c9_round_trip (cols : List String) (rows : List (List String))
    (hc : cols ≠ []) (hrows : ∀ row ∈ rows, row.length = cols.length) :
    reimport (to_csv cols rows) = some (cols, rows) := by
  have hdata : (to_csv cols rows).data =
      (((cols.map (fun s => s.data)) ::
        rows.map (fun row => row.map (fun s => s.data))).map
          csvLineChars).flatten := by
    show csvLineChars (cols.map (fun s => s.data)) ++
        (rows.map (fun row => csvLineChars (row.map (fun s => s.data)))).flatten =
      csvLineChars (cols.map (fun s => s.data)) ++
        ((rows.map (fun row => row.map (fun s => s.data))).map
          csvLineChars).flatten
    rw [List.map_map]
    rfl
  have hne : ∀ fs ∈ ((cols.map (fun s => s.data)) ::
      rows.map (fun row => row.map (fun s => s.data))), fs ≠ [] := by
    intro fs hfs
    rcases List.mem_cons.mp hfs with rfl | hfs
    · intro hnil
      apply hc
      simpa using hnil
    · rcases List.mem_map.mp hfs with ⟨row, hrow, rfl⟩
      intro hnil
      have hrnil : row = [] := by simpa using hnil
      have hlen := hrows row hrow
      rw [hrnil] at hlen
      exact hc (List.eq_nil_of_length_eq_zero hlen.symm)
  have hfuel : ((cols.map (fun s => s.data)) ::
      rows.map (fun row => row.map (fun s => s.data))).length ≤
      (to_csv cols rows).data.length + 1 := by
    rw [hdata]
    have := lines_length_le ((cols.map (fun s => s.data)) ::
      rows.map (fun row => row.map (fun s => s.data)))
    omega
  unfold reimport
  rw [hdata] at hfuel ⊢
  rw [parseRecordsF_lines _ _ hne hfuel]
  simp only [map_data_mk, map_map_data_mk]

/-- C9 witness: a concrete round trip whose column names and cells include
commas, a double quote and an empty field, so the quoting path is
exercised. -/
theorem c9_witness :
    reimport (to_csv ["Track", "A,B"] [["x", "y\"z"], ["", "w"]]) =
      some (["Track", "A,B"], [["x", "y\"z"], ["", "w"]]) :=
  c9_round_trip ["Track", "A,B"] [["x", "y\"z"], ["", "w"]]
    (by decide) (by decide)

end SpotifyApp
